import Mathlib

/-!
Verification of the render-graph extraction and output-resolution engine of the
HuskStandalone submitter (`HuskStandaloneSubmission.py`): the line parser
`get_render_info`, the selection resolver `parse_prim_pattern`, and the output
planner `determine_outputs`.  The Python code is shallowly embedded: strings are
`String`/`List Char`, Python `dict` (insertion ordered) is an association list,
Python exceptions are `Except` errors, and the regular expressions that the code
builds from user patterns are interpreted by a small matcher covering exactly the
constructs that arise (`.` and `.*` plus literal characters); a pattern character
that Python's `re` treats specially and that the matcher does not support is
reported as a compile error (`PyErr.reError`).
-/

/-- Python whitespace (`str.strip` / `\s`), ASCII range. -/
def isPyWs (c : Char) : Bool :=
  c = ' ' || c = '\t' || c = '\n' || c = '\r' || c = '\x0b' || c = '\x0c'

/-- Separator class of `re.split(r'[,\s]+', ...)`: comma or whitespace. -/
def isSepChar (c : Char) : Bool := c = ',' || isPyWs c

def pyStripL (cs : List Char) : List Char := cs.dropWhile isPyWs

/-- Python `str.lstrip()`. -/
def pyLstrip (s : String) : String := ⟨pyStripL s.toList⟩

/-- Python `str.strip()`. -/
def pyStrip (s : String) : String := ⟨(pyStripL (pyStripL s.toList).reverse).reverse⟩

/-- Python `value.strip('"')`: remove all leading and trailing double quotes. -/
def stripQuotes (s : String) : String :=
  ⟨((s.toList.dropWhile (· = '"')).reverse.dropWhile (· = '"')).reverse⟩

/-- Match `p` as a prefix of `cs`, returning the remainder. -/
def stripPfx : List Char → List Char → Option (List Char)
  | [], cs => some cs
  | _ :: _, [] => none
  | p :: ps, c :: cs => if c = p then stripPfx ps cs else none

theorem stripPfx_length : ∀ (p cs r : List Char),
    stripPfx p cs = some r → cs.length = p.length + r.length := by
  intro p
  induction p with
  | nil => intro cs r h; simp [stripPfx] at h; simp [h]
  | cons a ps ih =>
    intro cs r h
    cases cs with
    | nil => simp [stripPfx] at h
    | cons c cs' =>
      simp only [stripPfx] at h
      split at h
      · have := ih cs' r h
        simp [this]; omega
      · exact absurd h (by simp)

def isPfxOf : List Char → List Char → Bool
  | [], _ => true
  | _ :: _, [] => false
  | p :: ps, c :: cs => p = c && isPfxOf ps cs

/-- Substring containment (Python `in` on strings, `re` search of a literal). -/
def isSubstr (p : List Char) (s : List Char) : Bool :=
  isPfxOf p s ||
    match s with
    | [] => false
    | _ :: xs => isSubstr p xs

/-- Python `needle in hay` for strings. -/
def strContains (needle hay : String) : Bool := isSubstr needle.toList hay.toList

/-- The metadata separator `' = '`. -/
def sepEq : List Char := [' ', '=', ' ']

/-- Python `s.split(' = ')`: non-overlapping, leftmost-first. -/
def splitEq : List Char → List (List Char)
  | [] => [[]]
  | ' ' :: '=' :: ' ' :: rest => [] :: splitEq rest
  | c :: rest =>
    match splitEq rest with
    | t :: ts => (c :: t) :: ts
    | [] => [[c]]

/-- Python `s.split(',')`. -/
def splitCh : List Char → List (List Char)
  | [] => [[]]
  | c :: rest =>
    if c = ',' then [] :: splitCh rest
    else
      match splitCh rest with
      | t :: ts => (c :: t) :: ts
      | [] => [[c]]

/-- Python `re.split(r'[,\s]+', s)`: split on maximal separator runs, with an
empty token at either end when the string starts/ends with a separator. -/
def splitSepRuns : List Char → List (List Char)
  | [] => [[]]
  | [c] => if isSepChar c then [[], []] else [[c]]
  | c :: c2 :: rest =>
    if isSepChar c then
      if isSepChar c2 then splitSepRuns (c2 :: rest)
      else [] :: splitSepRuns (c2 :: rest)
    else
      match splitSepRuns (c2 :: rest) with
      | t :: ts => (c :: t) :: ts
      | [] => [[c]]

/-! ## Regular expressions

`parse_prim_pattern` builds a regex from each user pattern by replacing `*` with
`.*` and anchoring with a leading `/`.  The matcher below interprets the
fragment that this construction produces: literal characters, `.` (any char
except newline) and `.*` (any run of non-newline characters).  Characters that
are special to Python `re` and outside this fragment make compilation fail with
an error; for the inputs used in the theorems below this agrees with Python
(e.g. `re.compile('/(')` raises `re.error: missing ), unterminated subpattern`).
-/

inductive RAtom where
  | lit (c : Char)
  | dot
  | star
deriving DecidableEq, Repr

/-- Characters special to Python `re` that the embedded matcher does not
interpret as literals ( `.` is handled separately by `rcompile`). -/
def isRegexSpecial (c : Char) : Bool :=
  c = '*' || c = '(' || c = ')' || c = '[' || c = ']' || c = '\x7b' || c = '\x7d' ||
  c = '+' || c = '?' || c = '|' || c = '^' || c = '$' || c = '\\'

/-- Python `pattern.replace('*', '.*')`. -/
def starRep : List Char → List Char
  | [] => []
  | c :: rest => if c = '*' then '.' :: '*' :: starRep rest else c :: starRep rest

/-- Prepend `/` unless the pattern already starts with `/`
(`if not regex_string.startswith('/')`). -/
def anchorChars (cs : List Char) : List Char :=
  if cs.head? = some '/' then cs else '/' :: cs

/-- Compile a regex string of the generated fragment into atoms: `.` followed
by `*` becomes the any-sequence wildcard, a lone `.` the any-character atom,
and any non-special character a literal. -/
def rcompile : List Char → Option (List RAtom)
  | [] => some []
  | [c] =>
    if c = '.' then some [RAtom.dot]
    else if isRegexSpecial c then none
    else some [RAtom.lit c]
  | c :: c2 :: rest =>
    if c = '.' then
      if c2 = '*' then (rcompile rest).map (fun r => RAtom.star :: r)
      else (rcompile (c2 :: rest)).map (fun r => RAtom.dot :: r)
    else if isRegexSpecial c then none
    else (rcompile (c2 :: rest)).map (fun r => RAtom.lit c :: r)

/-- The suffixes of `s` reachable by letting `.*` consume characters: `s`
itself and every suffix obtained by dropping non-newline characters. -/
def starSuffixes : List Char → List (List Char)
  | [] => [[]]
  | x :: xs => (x :: xs) :: (if x = '\n' then [] else starSuffixes xs)

/-- Does the regex match some prefix of `s`?  `.*` may hand any reachable
suffix to the rest of the regex (for the boolean result this is equivalent to
greedy matching with backtracking). -/
def rmatchAt : List RAtom → List Char → Bool
  | [], _ => true
  | RAtom.lit c :: rs, x :: xs => (x = c) && rmatchAt rs xs
  | RAtom.dot :: rs, x :: xs => (x ≠ '\n') && rmatchAt rs xs
  | RAtom.star :: rs, s => (starSuffixes s).any (fun t => rmatchAt rs t)
  | _ :: _, [] => false

/-- Python `regex.search(s)` truthiness: the regex matches at some position. -/
def rsearch (re : List RAtom) (s : List Char) : Bool :=
  rmatchAt re s ||
    match s with
    | [] => false
    | _ :: xs => rsearch re xs

/-! ## Data model

`RenderInfo` mirrors the Python dataclass.  `startTimeCode`/`endTimeCode` are
declared `int` in Python but the metadata parser stores strings into them, so
they are modelled as a sum.  `relationships` is a Python dict (insertion
ordered, unique keys), modelled as an association list.
-/

inductive MetaV where
  | int (n : Int)
  | str (s : String)
deriving DecidableEq, Repr

structure RenderInfo where
  startTimeCode : MetaV := MetaV.int 1
  endTimeCode : MetaV := MetaV.int 1
  renderSettingsPrimPath : String := "/Render/rendersettings"
  ProductName : List String := []
  RenderVar : List String := []
  RenderProduct : List String := []
  RenderSettings : List String := []
  RenderPass : List String := []
  relationships : List (String × List String) := []
deriving DecidableEq, Repr

/-- The `Literal['RenderPass', 'RenderSettings']` argument of
`parse_prim_pattern`. -/
inductive PrimType where
  | RenderPass
  | RenderSettings
deriving DecidableEq, Repr

/-- `getattr(render_info, prim_type)` for the two admissible prim types. -/
def bucket (ri : RenderInfo) : PrimType → List String
  | PrimType.RenderPass => ri.RenderPass
  | PrimType.RenderSettings => ri.RenderSettings

/-- Python exceptions raised by the embedded code. -/
inductive PyErr where
  /-- `re.error` from `re.compile` on a pattern outside the modelled fragment
  (for the inputs used below Python indeed raises, e.g. on `'/('`). -/
  | reError
  /-- `KeyError` from indexing a dict with a missing key. -/
  | keyError (k : String)
  /-- `ValueError` from unpacking a `split(' = ')` of length ≠ 2. -/
  | valueError
  /-- `AttributeError` from calling `.append` on a non-list attribute, or from
  assigning the read-only `__weakref__` attribute. -/
  | attributeError
  /-- `TypeError` from assigning `__class__`/`__dict__` a string, from indexing
  a string with a string key, or from item-assignment on a string. -/
  | typeError
deriving DecidableEq, Repr

/-! ## PatternResolver: `parse_prim_pattern` -/

/-- Resolve one pattern of the selection: `pattern.replace('*', '.*')`, anchor
with `/`, compile, and keep the bucket paths in which the regex is found
(`filter(regex.search, valid_paths)`). -/
def resolvePat (ri : RenderInfo) (pt : PrimType) (pattern : List Char) :
    Except PyErr (List String) :=
  match rcompile (anchorChars (starRep pattern)) with
  | none => Except.error PyErr.reError
  | some re => Except.ok ((bucket ri pt).filter (fun p => rsearch re p.toList))

/-- The `for pattern in re.split(...)` loop: concatenate the matches of each
pattern in pattern order; a compile failure aborts with the exception. -/
def resolveAll (ri : RenderInfo) (pt : PrimType) : List (List Char) → Except PyErr (List String)
  | [] => Except.ok []
  | p :: ps =>
    match resolvePat ri pt p with
    | Except.error e => Except.error e
    | Except.ok l =>
      match resolveAll ri pt ps with
      | Except.error e => Except.error e
      | Except.ok r => Except.ok (l ++ r)

/-- `parse_prim_pattern(patterns, render_info, prim_type)`. -/
def parse_prim_pattern (patterns : String) (ri : RenderInfo) (pt : PrimType) :
    Except PyErr (List String) :=
  resolveAll ri pt (splitSepRuns patterns.toList)

/-! ## Dict helpers (Python `dict` on an association list) -/

def dictHasKey (d : List (String × List String)) (k : String) : Bool :=
  d.any (fun e => e.1 = k)

/-- `d[k]`, raising `KeyError` when absent. -/
def dictGet (d : List (String × List String)) (k : String) : Except PyErr (List String) :=
  match d with
  | [] => Except.error (PyErr.keyError k)
  | (k', v) :: rest => if k' = k then Except.ok v else dictGet rest k

/-- `d[k].append(v)`, raising `KeyError` when absent. -/
def dictAppend (d : List (String × List String)) (k : String) (v : String) :
    Except PyErr (List (String × List String)) :=
  match d with
  | [] => Except.error (PyErr.keyError k)
  | (k', vs) :: rest =>
    if k' = k then Except.ok ((k', vs ++ [v]) :: rest)
    else
      match dictAppend rest k v with
      | Except.error e => Except.error e
      | Except.ok rest' => Except.ok ((k', vs) :: rest')

/-- `if k not in d: d[k] = []` (insertion at the end, Python dict order). -/
def dictEnsure (d : List (String × List String)) (k : String) : List (String × List String) :=
  if dictHasKey d k then d else d ++ [(k, [])]

/-- `d[k] = v`: replace in place if present, else append (Python dict update
keeps the original insertion position). -/
def dictSet (d : List (String × (List String × List String))) (k : String)
    (v : List String × List String) : List (String × (List String × List String)) :=
  match d with
  | [] => [(k, v)]
  | (k', v') :: rest => if k' = k then (k', v) :: rest else (k', v') :: dictSet rest k v

/-- Error-propagating left fold (a Python `for` loop whose body may raise). -/
def foldE (f : α → β → Except PyErr α) : α → List β → Except PyErr α
  | a, [] => Except.ok a
  | a, b :: bs =>
    match f a b with
    | Except.error e => Except.error e
    | Except.ok a' => foldE f a' bs

/-! ## OutputPlanner: `determine_outputs` -/

/-- Inner loop body over one product: append the product's relationship targets
that are classified in the `ProductName` bucket. -/
def pnOfProduct (ri : RenderInfo) (acc : List String) (prod : String) :
    Except PyErr (List String) :=
  match dictGet ri.relationships prod with
  | Except.error e => Except.error e
  | Except.ok pns => Except.ok (acc ++ pns.filter (fun pn => ri.ProductName.contains pn))

/-- Loop body over one settings path: walk its `products` targets. -/
def pnOfSetting (ri : RenderInfo) (acc : List String) (s : String) :
    Except PyErr (List String) :=
  match dictGet ri.relationships s with
  | Except.error e => Except.error e
  | Except.ok prods => foldE (pnOfProduct ri) acc prods

/-- Body of the `for pass_prim in pass_prims` loop. -/
def passStep (ri : RenderInfo) (settings_prims productnames : List String)
    (acc : List (String × (List String × List String))) (pass_prim : String) :
    Except PyErr (List (String × (List String × List String))) :=
  match
    (if pass_prim = "" then Except.ok [ri.renderSettingsPrimPath]
     else dictGet ri.relationships pass_prim : Except PyErr (List String)) with
  | Except.error e => Except.error e
  | Except.ok ps0 =>
    let pass_settings := if settings_prims.isEmpty then ps0 else settings_prims
    if productnames.isEmpty then
      match foldE (pnOfSetting ri) [] pass_settings with
      | Except.error e => Except.error e
      | Except.ok pns => Except.ok (dictSet acc pass_prim (pass_settings, pns))
    else Except.ok (dictSet acc pass_prim (pass_settings, productnames))

/-- `determine_outputs(render_info, pass_value, settings_value, output_value)`.
Returns the insertion-ordered dict pass → (settings, productnames). -/
def determine_outputs (ri : RenderInfo) (pass_value settings_value output_value : String) :
    Except PyErr (List (String × (List String × List String))) :=
  match (if pass_value ≠ "" then parse_prim_pattern pass_value ri PrimType.RenderPass
         else Except.ok [] : Except PyErr (List String)) with
  | Except.error e => Except.error e
  | Except.ok pass_prims =>
    match (if settings_value ≠ "" then
             parse_prim_pattern settings_value ri PrimType.RenderSettings
           else Except.ok [] : Except PyErr (List String)) with
    | Except.error e => Except.error e
    | Except.ok settings_prims =>
      let productnames :=
        if output_value ≠ "" then
          (splitCh output_value.toList).map (fun cs => pyStrip ⟨cs⟩)
        else []
      let pass_prims' := if pass_prims.isEmpty then [""] else pass_prims
      foldE (passStep ri settings_prims productnames) [] pass_prims'

/-! ## Extractor: `get_render_info`

The specialised matchers below implement the `re.search` calls of the parser
loop on their exact patterns (leftmost match, greedy groups).
-/

/-- Content before the last occurrence of `c` (for greedy `(.*)>` groups). -/
def beforeLastChar (c : Char) (cs : List Char) : List Char :=
  match cs.reverse.dropWhile (fun x => x ≠ c) with
  | [] => []
  | _ :: t => t.reverse

/-- `re.search(r'<(.*)>', line)`: group 1, if any.  The match starts at the
first `<` that is followed by some `>`, and the greedy group extends to the
last `>` of the line. -/
def arrGroup : List Char → Option (List Char)
  | [] => none
  | c :: rest =>
    if c = '<' then
      if rest.contains '>' then some (beforeLastChar '>' rest) else arrGroup rest
    else arrGroup rest

/-- Scan the reversed character list for the last `",` pair; return the content
before it (reversed back), requiring it nonempty (`(.+)` needs ≥ 1 char). -/
def revPairScan : List Char → Option (List Char)
  | ',' :: '"' :: t => if t.isEmpty then none else some t.reverse
  | _ :: t => revPairScan t
  | [] => none

/-- Try `\d+: "(.+)",` at the current position: a maximal digit run, then
`: "`, then a greedy nonempty group ending at the last `",`. -/
def mapMatchAt (cs : List Char) : Option (List Char) :=
  match cs with
  | [] => none
  | c :: _ =>
    if c.isDigit then
      match cs.dropWhile Char.isDigit with
      | ':' :: ' ' :: '"' :: rest2 => revPairScan rest2.reverse
      | _ => none
    else none

/-- `re.search(r'\d+: "(.+)",', line)`: group 1 of the leftmost match. -/
def mapGroup : List Char → Option (List Char)
  | [] => none
  | c :: rest =>
    match mapMatchAt (c :: rest) with
    | some g => some g
    | none => mapGroup rest

/-- Greedy tail of `def (?P<type>.+) "(?P<name>.+)"` after the literal `def `:
scan right-to-left for the rightmost ` "` that leaves a nonempty type before it
and a nonempty name before the last `"`.  `acc` holds the name candidate in
source order; `L` is the reversed remaining input. -/
def defScan2 (acc : List Char) (L : List Char) : Option (String × String) :=
  match L with
  | [] => none
  | c :: t =>
    match c, t with
    | '"', ' ' :: t2 =>
      if acc ≠ [] ∧ t2 ≠ [] then some (⟨t2.reverse⟩, ⟨acc⟩)
      else defScan2 (c :: acc) t
    | _, _ => defScan2 (c :: acc) t

/-- Match `(?P<type>.+) "(?P<name>.+)"` against `cs` (greedy type and name). -/
def defAfter (cs : List Char) : Option (String × String) :=
  match cs.reverse.dropWhile (fun x => x ≠ '"') with
  | [] => none
  | _ :: rest1 => defScan2 [] rest1

/-- `re.search(r'def (?P<type>.+) "(?P<name>.+)"', line)`. -/
def defSearch : List Char → Option (String × String)
  | [] => none
  | c :: rest =>
    match stripPfx "def ".toList (c :: rest) with
    | some after =>
      match defAfter after with
      | some r => some r
      | none => defSearch rest
    | none => defSearch rest

/-- The four relationship names of the parser's regex, in alternation order. -/
def relTypes : List (List Char) :=
  ["products".toList, "renderSource".toList, "orderedVars".toList,
   "productName.timeSamples".toList]

def tryTypes : List (List Char) → List Char → Option (List Char)
  | [], _ => none
  | t :: ts, cs =>
    match stripPfx t cs with
    | some r => some r
    | none => tryTypes ts cs

/-- The value part `<?(?P<path>[^>]+)>?`: an optional `<`, then a greedy
nonempty run of non-`>` characters (backtracking the optional `<` when the run
after it would be empty). -/
def relValue (cs : List Char) : Option String :=
  match cs with
  | '<' :: rest =>
    let t := rest.takeWhile (fun x => x ≠ '>')
    if t.isEmpty then some "<" else some ⟨t⟩
  | _ =>
    let t := cs.takeWhile (fun x => x ≠ '>')
    if t.isEmpty then none else some ⟨t⟩

def relMatchAt (cs : List Char) : Option String :=
  match
    (match stripPfx "rel ".toList cs with
     | some r => some r
     | none => stripPfx "token ".toList cs) with
  | none => none
  | some cs1 =>
    match tryTypes relTypes cs1 with
    | none => none
    | some cs2 =>
      match stripPfx sepEq cs2 with
      | none => none
      | some cs3 => relValue cs3

/-- `re.search(r'(?:rel|token) (?P<type>...) = <?(?P<path>[^>]+)>?', line)`:
the captured value of the leftmost match. -/
def relSearch : List Char → Option String
  | [] => none
  | c :: rest =>
    match relMatchAt (c :: rest) with
    | some v => some v
    | none => relSearch rest

/-- `os.path.split(p)[0]` for `/`-separated paths (posixpath; ntpath agrees on
paths without backslashes or drive letters). -/
def ospathHead (s : String) : String :=
  let cs := s.toList
  if cs.contains '/' then
    let head := (cs.reverse.dropWhile (fun x => x ≠ '/')).reverse
    if head.all (fun x => x = '/') then ⟨head⟩
    else ⟨(head.reverse.dropWhile (fun x => x = '/')).reverse⟩
  else ""

/-- `n` successive `accum_path, _ = os.path.split(accum_path)` pops. -/
def popN (s : String) : Nat → String
  | 0 => s
  | n + 1 => popN (ospathHead s) n

/-- The `resume` scratch list of the parser: inactive, array block (`]`
terminator), map block (`}` terminator), or skipping to `}` after the first
map entry (`resume[0] = 'skip'`). -/
inductive Resume where
  | idle
  | array
  | map
  | skipMap
deriving DecidableEq, Repr

/-- Lookup in the raw-`setattr` store. -/
def ovLookup (ov : List (String × String)) (k : String) : Option String :=
  match ov with
  | [] => none
  | (k', v) :: rest => if k' = k then some v else ovLookup rest k

/-- `d[k] = v` on a string-valued dict: replace in place if present, else
append (Python dict update keeps the original insertion position). -/
def strDictSet (d : List (String × String)) (k v : String) : List (String × String) :=
  match d with
  | [] => [(k, v)]
  | (k', v') :: rest => if k' = k then (k', v) :: rest else (k', v') :: strDictSet rest k v

/-- The mutable state of the `get_render_info` loop.  `overwritten` is the raw
`setattr` store for metadata assignments that replace one of the six collection
attributes (`ProductName` … `relationships`) with a string: in Python the
attribute *is* that string afterwards, so every later operation on the
attribute consults this store first and fails exactly where Python fails. -/
structure PState where
  result : RenderInfo := {}
  overwritten : List (String × String) := []
  accum_path : String := ""
  accum_depth : Int := -1
  finished_metadata : Bool := false
  resume : Resume := Resume.idle
deriving DecidableEq, Repr

/-- Metadata-mode `if hasattr(result, key): setattr(result, key, value.strip('"'))`.
`hasattr` is true for the nine dataclass fields and for the attributes the
instance inherits (methods, dunder metadata, `__class__`, `__dict__`,
`__weakref__`).  The three recognized scalar fields store the quote-stripped
value; the six collection attributes are *silently replaced* by the string
(recorded in `overwritten`); assigning `__class__` or `__dict__` a string
raises `TypeError` and assigning the read-only `__weakref__` raises
`AttributeError` (verified against CPython on an identical dataclass — these
are the only attributes whose assignment raises).  Assigning any other
inherited attribute name merely shadows it with an instance attribute and
leaves the nine graph fields unchanged, and a key that is no attribute at all
is ignored — both are no-ops on the modelled state. -/
def setattrMeta (st : PState) (key value : String) : Except PyErr PState :=
  if key = "startTimeCode" then
    Except.ok {st with result := {st.result with startTimeCode := MetaV.str (stripQuotes value)}}
  else if key = "endTimeCode" then
    Except.ok {st with result := {st.result with endTimeCode := MetaV.str (stripQuotes value)}}
  else if key = "renderSettingsPrimPath" then
    Except.ok {st with result := {st.result with renderSettingsPrimPath := stripQuotes value}}
  else if key = "ProductName" ∨ key = "RenderVar" ∨ key = "RenderProduct" ∨
       key = "RenderSettings" ∨ key = "RenderPass" ∨ key = "relationships" then
    Except.ok {st with overwritten := strDictSet st.overwritten key (stripQuotes value)}
  else if key = "__class__" ∨ key = "__dict__" then Except.error PyErr.typeError
  else if key = "__weakref__" then Except.error PyErr.attributeError
  else Except.ok st

/-- `if hasattr(result, prim_type): getattr(result, prim_type).append(...)`.
An attribute overwritten with a string has no `.append` (AttributeError).
Otherwise the five list-typed buckets accept the append; the three scalar
fields and `relationships` have no `.append` (AttributeError); other names are
not dataclass attributes and are ignored (names inherited from `object`, e.g.
dunder methods, would also raise AttributeError on `.append` in Python and are
outside the modelled inputs). -/
def primRecord (ri : RenderInfo) (ov : List (String × String)) (ty path : String) :
    Except PyErr RenderInfo :=
  if (ovLookup ov ty).isSome then Except.error PyErr.attributeError
  else if ty = "ProductName" then Except.ok {ri with ProductName := ri.ProductName ++ [path]}
  else if ty = "RenderVar" then Except.ok {ri with RenderVar := ri.RenderVar ++ [path]}
  else if ty = "RenderProduct" then Except.ok {ri with RenderProduct := ri.RenderProduct ++ [path]}
  else if ty = "RenderSettings" then Except.ok {ri with RenderSettings := ri.RenderSettings ++ [path]}
  else if ty = "RenderPass" then Except.ok {ri with RenderPass := ri.RenderPass ++ [path]}
  else if ty = "startTimeCode" ∨ ty = "endTimeCode" ∨ ty = "renderSettingsPrimPath" ∨
       ty = "relationships" then Except.error PyErr.attributeError
  else Except.ok ri

/-- Prim-definition and relationship detection (the loop body when no resume
is active and metadata is finished).  When `relationships` was overwritten
with a string `s`, Python's `accum_path not in result.relationships` becomes a
substring test on `s`; a failed test reaches the item assignment
`result.relationships[accum_path] = []` (TypeError on a string), a passing one
skips to the value dispatch, where `[`/`{` only set the resume state and any
other value reaches the string subscript (TypeError). -/
def idleStep (st : PState) (line : String) : Except PyErr PState :=
  match defSearch line.toList with
  | some (ty, name) =>
    let current_depth : Int := ((line.toList.takeWhile isPyWs).length / 4 : Nat)
    let st' :=
      if current_depth > st.accum_depth then
        {st with accum_depth := current_depth,
                 accum_path := st.accum_path ++ "/" ++ name}
      else
        let diff := st.accum_depth - current_depth
        {st with accum_depth := st.accum_depth - diff,
                 accum_path := popN st.accum_path (diff + 1).toNat ++ "/" ++ name}
    match primRecord st'.result st'.overwritten ty st'.accum_path with
    | Except.error e => Except.error e
    | Except.ok ri => Except.ok {st' with result := ri}
  | none =>
    match relSearch line.toList with
    | none => Except.ok st
    | some value =>
      match ovLookup st.overwritten "relationships" with
      | some s =>
        if isSubstr st.accum_path.toList s.toList then
          if value = "[" then Except.ok {st with resume := Resume.array}
          else if value = "\x7b" then Except.ok {st with resume := Resume.map}
          else Except.error PyErr.typeError
        else Except.error PyErr.typeError
      | none =>
        let d := dictEnsure st.result.relationships st.accum_path
        if value = "[" then
          Except.ok {st with result := {st.result with relationships := d},
                             resume := Resume.array}
        else if value = "\x7b" then
          Except.ok {st with result := {st.result with relationships := d},
                             resume := Resume.map}
        else
          match dictAppend d st.accum_path value with
          | Except.error e => Except.error e
          | Except.ok d2 => Except.ok {st with result := {st.result with relationships := d2}}

/-- One iteration of the `for line in usdcat.splitlines()` loop.  `norm` is the
external frame-padding normalizer `FrameUtils.ReplaceFrameNumberWithPrintFPadding`
(a collaborator outside this repository), passed as a parameter. -/
def stepLine (norm : String → String) (st : PState) (line : String) : Except PyErr PState :=
  if st.finished_metadata = false then
    if pyStrip line = ")" then Except.ok {st with finished_metadata := true}
    else if strContains " = " line = false then Except.ok st
    else
      match splitEq (pyLstrip line).toList with
      | [k, v] => setattrMeta st ⟨k⟩ ⟨v⟩
      | _ => Except.error PyErr.valueError
  else
    match st.resume with
    | Resume.idle => idleStep st line
    | Resume.array =>
      if line.toList.contains ']' then Except.ok {st with resume := Resume.idle}
      else
        match arrGroup line.toList with
        | none => Except.ok {st with resume := Resume.idle}
        | some g =>
          if (ovLookup st.overwritten "relationships").isSome then
            Except.error PyErr.typeError
          else
            match dictAppend st.result.relationships st.accum_path ⟨g⟩ with
            | Except.error e => Except.error e
            | Except.ok d => Except.ok {st with result := {st.result with relationships := d}}
    | Resume.map =>
      if line.toList.contains '\x7d' then Except.ok {st with resume := Resume.idle}
      else
        match mapGroup line.toList with
        | none => Except.ok {st with resume := Resume.idle}
        | some g =>
          let v := norm ⟨g⟩
          if (ovLookup st.overwritten "ProductName").isSome then
            Except.error PyErr.attributeError
          else if (ovLookup st.overwritten "relationships").isSome then
            Except.error PyErr.typeError
          else
            match dictAppend st.result.relationships st.accum_path v with
            | Except.error e => Except.error e
            | Except.ok d =>
              Except.ok {st with
                result := {st.result with relationships := d,
                                          ProductName := st.result.ProductName ++ [v]},
                resume := Resume.skipMap}
    | Resume.skipMap =>
      if line.toList.contains '\x7d' then Except.ok {st with resume := Resume.idle}
      else Except.ok st

def runLines (norm : String → String) : PState → List String → Except PyErr PState
  | st, [] => Except.ok st
  | st, l :: ls =>
    match stepLine norm st l with
    | Except.error e => Except.error e
    | Except.ok st' => runLines norm st' ls

/-- `get_render_info`, applied to the text lines produced by the external
`usdcat --flatten --mask /Render` invocation.  Returns the nine typed fields
of the final state; a run whose final `overwritten` store is nonempty
corresponds to a Python object whose recorded collection attributes are the
stored strings rather than the typed fields — such a return value is no
well-formed graph of the data model. -/
def get_render_info (norm : String → String) (lines : List String) :
    Except PyErr RenderInfo :=
  match runLines norm {} lines with
  | Except.error e => Except.error e
  | Except.ok st => Except.ok st.result

/-! ## Concrete evaluations for the claims -/

/-- C1 counterexample: the code contains no `MalformedLayerError` at all.  On an
input in which no terminator line `)` ever appears the claim says parsing
raises `MalformedLayerError`; instead every line is consumed in metadata mode
and the default graph is returned without error. -/
theorem c1_counterexample :
    get_render_info (fun s => s) ["foo"] = Except.ok ({} : RenderInfo) := rfl

/-- C3: evaluating the parser at the claimed depth sequence 0,1,2,1,0 with
names A,B,C,D,E.  The first four accumulated paths agree with the claim, but
the final one is `//E`, not `/E`: popping `(previous − new + 1)` times from
`/A/D` reaches `os.path.split('/A') = ('/', 'A')`, and appending `/E` to the
leftover root `/` produces the doubled slash. -/
theorem c3_depth_eval :
    get_render_info (fun s => s)
      [")", "def RenderPass \"A\"", "    def RenderPass \"B\"",
       "        def RenderPass \"C\"", "    def RenderPass \"D\"",
       "def RenderPass \"E\""] =
    Except.ok {RenderPass := ["/A", "/A/B", "/A/B/C", "/A/D", "//E"]} := rfl

/-- C4 counterexample: a map block with two `index: "value",` lines.  The claim
says every matching line is appended; the code appends only the first
(`resume[0] = 'skip'` after the first match) — `"f2"` reaches neither the
relationship list nor the `ProductName` bucket. -/
theorem c4_counterexample :
    get_render_info (fun s => s)
      [")", "def RenderProduct \"p\"", "token productName.timeSamples = \x7b",
       "0: \"f1\",", "1: \"f2\",", "\x7d"] =
    Except.ok {ProductName := ["f1"], RenderProduct := ["/p"],
               relationships := [("/p", ["f1"])]} := rfl

/-- C9 counterexample: a metadata-mode line containing two `' = '` separators.
The claim says such a line (its key `a` is unrecognized) leaves all fields of
the graph unchanged; the code instead crashes with `ValueError` at
`key, value = line.lstrip().split(' = ')` (three values to unpack). -/
theorem c9_counterexample :
    get_render_info (fun s => s) ["a = b = c"] = Except.error PyErr.valueError := rfl

/-- C2 counterexample: a graph whose `RenderPass` bucket holds `/p` but whose
relationships dict is empty.  The claim says the absent `renderSource` lookup
yields an empty settings list; `determine_outputs` instead raises `KeyError`
at `render_info.relationships[pass_prim]`. -/
theorem c2_counterexample :
    determine_outputs {RenderPass := ["/p"]} "p" "" "" =
    Except.error (PyErr.keyError "/p") := rfl

/-- C5 counterexample: a settings selection is provided (`"x"`) but resolves to
the empty list against an empty `RenderSettings` bucket.  The claim says the
resolver result replaces the pass-derived settings entirely; the code's
`if settings_prims:` is false on an empty list, so the emitted settings are
the pass-derived `['/Render/rendersettings']`, not the resolver's `[]`. -/
theorem c5_counterexample :
    determine_outputs ({} : RenderInfo) "" "x" "o" =
    Except.ok [("", (["/Render/rendersettings"], ["o"]))] := rfl

/-- C6 counterexample: with the claimed `outputOverride` supplied, a selected
pass absent from the relationships dict still raises `KeyError` during the
settings derivation, so not every selected pass gets the output list
"regardless of graph contents". -/
theorem c6_counterexample :
    determine_outputs {RenderPass := ["/p"]} "p" "" "out1.%04d.exr, out2.%04d.exr" =
    Except.error (PyErr.keyError "/p") := rfl

/-- C8 counterexample: the selection string `(` anchors to the regex `/(`,
on which Python's `re.compile` raises `re.error: missing ), unterminated
subpattern` — `parse_prim_pattern` is not exception-free for every selection
string. -/
theorem c8_counterexample :
    parse_prim_pattern "(" ({} : RenderInfo) PrimType.RenderPass =
    Except.error PyErr.reError := rfl

/-- C10 counterexample: `a,,b` contains two consecutive separators, yet
`re.split(r'[,\s]+', ...)` treats the run `,,` as a single separator: the
split is `['a', 'b']`, no empty pattern arises, and the bucket `['/x']` is
not appended — the result is empty, contradicting the claim. -/
theorem c10_counterexample :
    parse_prim_pattern "a,,b" {RenderPass := ["/x"]} PrimType.RenderPass =
      Except.ok [] ∧
    splitSepRuns "a,,b".toList = ["a".toList, "b".toList] := by
  exact ⟨rfl, rfl⟩

/-! ## Helper lemmas -/

theorem rmatchAt_lits : ∀ (cs s : List Char),
    rmatchAt (cs.map RAtom.lit) s = isPfxOf cs s := by
  intro cs
  induction cs with
  | nil => intro s; rfl
  | cons c cs ih =>
    intro s
    cases s with
    | nil => rfl
    | cons x xs =>
      simp only [List.map_cons, rmatchAt, isPfxOf, ih]
      by_cases h : x = c
      · subst h; simp
      · have h' : ¬(c = x) := fun hh => h hh.symm
        simp [h, h']

theorem rsearch_lits : ∀ (s cs : List Char),
    rsearch (cs.map RAtom.lit) s = isSubstr cs s := by
  intro s
  induction s with
  | nil => intro cs; simp only [rsearch, isSubstr, rmatchAt_lits]
  | cons x xs ih => intro cs; simp only [rsearch, isSubstr, rmatchAt_lits, ih]

theorem rsearch_slash (l : List Char) (h : l.head? = some '/') :
    rsearch [RAtom.lit '/'] l = true := by
  cases l with
  | nil => simp at h
  | cons x xs =>
    simp only [List.head?_cons, Option.some_inj] at h
    subst h
    simp [rsearch, rmatchAt]

theorem splitSepRuns_ne_nil : ∀ (cs : List Char), splitSepRuns cs ≠ [] := by
  intro cs
  induction cs with
  | nil => simp [splitSepRuns]
  | cons c rest ih =>
    cases rest with
    | nil => simp only [splitSepRuns]; split <;> simp
    | cons c2 r2 =>
      simp only [splitSepRuns]
      split
      · split
        · exact ih
        · simp
      · split <;> simp

theorem splitSepRuns_single : ∀ (cs : List Char), cs ≠ [] →
    (∀ c ∈ cs, isSepChar c = false) → splitSepRuns cs = [cs] := by
  intro cs
  induction cs with
  | nil => simp
  | cons c rest ih =>
    intro _ h
    have hc : isSepChar c = false := h c (by simp)
    cases rest with
    | nil => simp [splitSepRuns, hc]
    | cons c2 r2 =>
      have hrest : splitSepRuns (c2 :: r2) = [c2 :: r2] :=
        ih (by simp) (fun x hx => h x (by simp [hx]))
      simp [splitSepRuns, hc, hrest]

theorem splitSepRuns_head_sep : ∀ (c : Char) (rest : List Char),
    isSepChar c = true → ∃ t, splitSepRuns (c :: rest) = [] :: t := by
  intro c rest
  induction rest generalizing c with
  | nil => intro hc; exact ⟨[[]], by simp [splitSepRuns, hc]⟩
  | cons c2 r2 ih =>
    intro hc
    by_cases h2 : isSepChar c2 = true
    · obtain ⟨t, ht⟩ := ih c2 h2
      exact ⟨t, by simp [splitSepRuns, hc, h2, ht]⟩
    · simp only [Bool.not_eq_true] at h2
      exact ⟨splitSepRuns (c2 :: r2), by simp [splitSepRuns, hc, h2]⟩

theorem splitSepRuns_last_sep : ∀ (cs : List Char), cs ≠ [] →
    (∀ c, cs.getLast? = some c → isSepChar c = true) →
    ∃ t, t ≠ [] ∧ splitSepRuns cs = t ++ [[]] := by
  intro cs
  induction cs with
  | nil => simp
  | cons a as ih =>
    intro _ hlast
    cases as with
    | nil =>
      have ha : isSepChar a = true := hlast a (by simp)
      exact ⟨[[]], by simp, by simp [splitSepRuns, ha]⟩
    | cons c2 r2 =>
      obtain ⟨t, htne, ht⟩ := ih (by simp) (fun c hc => hlast c (by
        simpa [List.getLast?_cons_cons] using hc))
      by_cases hsa : isSepChar a = true
      · by_cases hs2 : isSepChar c2 = true
        · exact ⟨t, htne, by simp [splitSepRuns, hsa, hs2, ht]⟩
        · refine ⟨[] :: t, by simp, ?_⟩
          simp only [splitSepRuns, hsa, if_true]
          simp only [Bool.not_eq_true] at hs2
          simp [hs2, ht]
      · simp only [Bool.not_eq_true] at hsa
        obtain ⟨t0, ts, rfl⟩ : ∃ t0 ts, t = t0 :: ts := by
          cases t with
          | nil => exact absurd rfl htne
          | cons t0 ts => exact ⟨t0, ts, rfl⟩
        refine ⟨(a :: t0) :: ts, by simp, ?_⟩
        simp only [splitSepRuns, hsa]
        rw [show (t0 :: ts) ++ [[]] = t0 :: (ts ++ [[]]) from rfl] at ht
        simp [ht]

theorem splitSepRuns_mem_chars : ∀ (cs : List Char) (p : List Char),
    p ∈ splitSepRuns cs → ∀ c ∈ p, c ∈ cs ∧ isSepChar c = false := by
  intro cs
  induction cs with
  | nil => intro p hp; simp [splitSepRuns] at hp; simp [hp]
  | cons a as ih =>
    intro p hp c hc
    cases as with
    | nil =>
      by_cases ha : isSepChar a = true
      · simp [splitSepRuns, ha] at hp
        subst hp
        simp at hc
      · simp only [Bool.not_eq_true] at ha
        simp [splitSepRuns, ha] at hp
        subst hp
        simp at hc
        subst hc
        simp [ha]
    | cons c2 r2 =>
      by_cases ha : isSepChar a = true
      · by_cases h2 : isSepChar c2 = true
        · simp only [splitSepRuns, ha, if_true, h2] at hp
          have := ih p hp c hc
          exact ⟨by simp [this.1], this.2⟩
        · simp only [Bool.not_eq_true] at h2
          simp only [splitSepRuns, ha, if_true, h2] at hp
          simp at hp
          rcases hp with rfl | hp
          · simp at hc
          · have := ih p hp c hc
            exact ⟨by simp [this.1], this.2⟩
      · simp only [Bool.not_eq_true] at ha
        simp only [splitSepRuns, ha] at hp
        rcases hrec : splitSepRuns (c2 :: r2) with _ | ⟨t0, ts⟩
        · exact absurd hrec (splitSepRuns_ne_nil _)
        · rw [hrec] at hp
          simp at hp
          rcases hp with rfl | hp
          · simp at hc
            rcases hc with rfl | hc
            · simp [ha]
            · have := ih t0 (by simp [hrec]) c hc
              exact ⟨by simp [this.1], this.2⟩
          · have := ih p (by simp [hrec, hp]) c hc
            exact ⟨by simp [this.1], this.2⟩

theorem rcompile_cons_lit (c : Char) (rest : List Char) (hd : c ≠ '.') :
    rcompile (c :: rest) =
      if isRegexSpecial c then none
      else (rcompile rest).map (fun r => RAtom.lit c :: r) := by
  cases rest with
  | nil =>
    simp only [rcompile, if_neg hd]
    split
    · rfl
    · rfl
  | cons c2 r2 => simp only [rcompile, if_neg hd]

theorem rcompile_dot_star (rest : List Char) :
    rcompile ('.' :: '*' :: rest) = (rcompile rest).map (fun r => RAtom.star :: r) := rfl

theorem rcompile_dot (c2 : Char) (rest : List Char) (h : c2 ≠ '*') :
    rcompile ('.' :: c2 :: rest) =
      (rcompile (c2 :: rest)).map (fun r => RAtom.dot :: r) := by
  simp [rcompile, h]

theorem starRep_eq_self : ∀ (cs : List Char), (∀ c ∈ cs, c ≠ '*') → starRep cs = cs := by
  intro cs
  induction cs with
  | nil => intro _; rfl
  | cons c rest ih =>
    intro h
    simp [starRep, h c (by simp), ih (fun x hx => h x (by simp [hx]))]

theorem starRep_head_ne_star : ∀ (cs : List Char), (starRep cs).head? ≠ some '*' := by
  intro cs
  cases cs with
  | nil => simp [starRep]
  | cons c rest =>
    simp only [starRep]
    split
    · simp
    · simp_all

theorem rcompile_lits : ∀ (cs : List Char),
    (∀ c ∈ cs, isRegexSpecial c = false ∧ c ≠ '.') →
    rcompile cs = some (cs.map RAtom.lit) := by
  intro cs
  induction cs with
  | nil => intro _; rfl
  | cons c rest ih =>
    intro h
    obtain ⟨hs, hd⟩ := h c (by simp)
    rw [rcompile_cons_lit c rest hd, if_neg (by simp [hs]),
        ih (fun x hx => h x (by simp [hx]))]
    rfl

theorem rcompile_starRep_ok : ∀ (cs : List Char),
    (∀ c ∈ cs, c = '*' ∨ c = '.' ∨ isRegexSpecial c = false) →
    ∃ re, rcompile (starRep cs) = some re := by
  intro cs
  induction cs with
  | nil => intro _; exact ⟨[], rfl⟩
  | cons c rest ih =>
    intro h
    obtain ⟨re', hre'⟩ := ih (fun x hx => h x (by simp [hx]))
    by_cases hstar : c = '*'
    · subst hstar
      refine ⟨RAtom.star :: re', ?_⟩
      have hsr : starRep ('*' :: rest) = '.' :: '*' :: starRep rest := by simp [starRep]
      rw [hsr, rcompile_dot_star, hre']
      rfl
    · by_cases hdot : c = '.'
      · subst hdot
        have hsr : starRep ('.' :: rest) = '.' :: starRep rest := by simp [starRep]
        rw [hsr]
        cases hsr2 : starRep rest with
        | nil => exact ⟨[RAtom.dot], rfl⟩
        | cons d dr =>
          have hd : d ≠ '*' := by
            have := starRep_head_ne_star rest
            rw [hsr2] at this
            simpa using this
          refine ⟨RAtom.dot :: re', ?_⟩
          rw [rcompile_dot d dr hd, ← hsr2, hre']
          rfl
      · have hns : isRegexSpecial c = false := by
          rcases h c (by simp) with h' | h' | h'
          · exact absurd h' hstar
          · exact absurd h' hdot
          · exact h'
        refine ⟨RAtom.lit c :: re', ?_⟩
        have hsr : starRep (c :: rest) = c :: starRep rest := by simp [starRep, hstar]
        rw [hsr, rcompile_cons_lit c (starRep rest) hdot, if_neg (by simp [hns]), hre']
        rfl

theorem rcompile_anchor_ok (cs : List Char)
    (h : ∀ c ∈ cs, c = '*' ∨ c = '.' ∨ isRegexSpecial c = false) :
    ∃ re, rcompile (anchorChars (starRep cs)) = some re := by
  obtain ⟨re, hre⟩ := rcompile_starRep_ok cs h
  unfold anchorChars
  by_cases hh : (starRep cs).head? = some '/'
  · rw [if_pos hh]; exact ⟨re, hre⟩
  · rw [if_neg hh, rcompile_cons_lit '/' (starRep cs) (by decide),
        if_neg (by decide), hre]
    exact ⟨RAtom.lit '/' :: re, rfl⟩

theorem resolveAll_append_ok (ri : RenderInfo) (pt : PrimType) :
    ∀ (l1 l2 : List (List Char)) (res : List String),
    resolveAll ri pt (l1 ++ l2) = Except.ok res →
    ∃ r1 r2, resolveAll ri pt l1 = Except.ok r1 ∧ resolveAll ri pt l2 = Except.ok r2 ∧
      res = r1 ++ r2 := by
  intro l1
  induction l1 with
  | nil => intro l2 res h; exact ⟨[], res, rfl, h, by simp⟩
  | cons p ps ih =>
    intro l2 res h
    simp only [List.cons_append, resolveAll] at h ⊢
    cases hp : resolvePat ri pt p with
    | error e => simp only [hp] at h; cases h
    | ok l =>
      simp only [hp, List.append_eq] at h
      cases hr : resolveAll ri pt (ps ++ l2) with
      | error e => simp only [hr] at h; cases h
      | ok r =>
        simp only [hr] at h
        injection h with h
        obtain ⟨r1, r2, h1, h2, rfl⟩ := ih l2 r hr
        refine ⟨l ++ r1, r2, ?_, h2, ?_⟩
        · simp only [hp, h1]
        · rw [← h, List.append_assoc]

theorem resolveAll_compile_ok (ri : RenderInfo) (pt : PrimType) : ∀ (L : List (List Char)),
    (∀ p ∈ L, ∃ re, rcompile (anchorChars (starRep p)) = some re) →
    ∃ r, resolveAll ri pt L = Except.ok r ∧ (bucket ri pt = [] → r = []) := by
  intro L
  induction L with
  | nil => intro _; exact ⟨[], rfl, fun _ => rfl⟩
  | cons p ps ih =>
    intro h
    obtain ⟨re, hre⟩ := h p (by simp)
    obtain ⟨r', hr', hr'e⟩ := ih (fun x hx => h x (by simp [hx]))
    refine ⟨(bucket ri pt).filter (fun q => rsearch re q.toList) ++ r', ?_, ?_⟩
    · simp only [resolveAll, resolvePat, hre, hr']
    · intro hb; simp [hb, hr'e hb]

theorem splitCh_ne_nil : ∀ (cs : List Char), splitCh cs ≠ [] := by
  intro cs
  induction cs with
  | nil => simp [splitCh]
  | cons c rest ih =>
    simp only [splitCh]
    split
    · simp
    · split
      · simp
      · simp

theorem foldE_inv {α β : Type} (f : α → β → Except PyErr α) (P : α → Prop)
    (hstep : ∀ a b a', f a b = Except.ok a' → P a → P a') :
    ∀ (l : List β) (a res : α), foldE f a l = Except.ok res → P a → P res := by
  intro l
  induction l with
  | nil =>
    intro a res h hp
    simp only [foldE] at h
    injection h with h
    exact h ▸ hp
  | cons b bs ih =>
    intro a res h hp
    simp only [foldE] at h
    cases hfb : f a b with
    | error e => rw [hfb] at h; cases h
    | ok a' => rw [hfb] at h; exact ih a' res h (hstep a b a' hfb hp)

theorem mem_dictSet : ∀ (d : List (String × (List String × List String)))
    (k : String) (v : List String × List String) (e : String × (List String × List String)),
    e ∈ dictSet d k v → e ∈ d ∨ e = (k, v) := by
  intro d
  induction d with
  | nil => intro k v e h; simp [dictSet] at h; right; exact h
  | cons kv rest ih =>
    intro k v e h
    obtain ⟨k', v'⟩ := kv
    simp only [dictSet] at h
    split at h
    · rename_i hk
      rcases List.mem_cons.mp h with rfl | hmem
      · right; rw [hk]
      · left; exact List.mem_cons_of_mem _ hmem
    · rcases List.mem_cons.mp h with rfl | hmem
      · left; exact List.mem_cons_self _ _
      · rcases ih k v e hmem with h' | h'
        · left; exact List.mem_cons_of_mem _ h'
        · right; exact h'

/-! ## PatternResolver claims -/

/-- C7: `parse_prim_pattern` replaces `*` by the any-sequence wildcard, anchors
non-`/` patterns with a leading `/`, and keeps every bucket path in which the
regex is *found* (substring search, not an anchored full match).  First
conjunct: the concrete example — pattern `final` against
`/Render/final`, `/Render/final_high`, `/Render/preview` selects exactly the
first two, in bucket order.  Second conjunct: for wildcard-free patterns the
selection is exactly the bucket paths containing the `/`-anchored pattern as a
substring. -/
theorem c7_pattern_semantics :
    (parse_prim_pattern "final"
        {RenderSettings := ["/Render/final", "/Render/final_high", "/Render/preview"]}
        PrimType.RenderSettings =
      Except.ok ["/Render/final", "/Render/final_high"]) ∧
    (∀ (pattern : String) (ri : RenderInfo) (pt : PrimType),
      pattern ≠ "" →
      (∀ c ∈ pattern.toList, isSepChar c = false ∧ isRegexSpecial c = false ∧ c ≠ '.') →
      parse_prim_pattern pattern ri pt =
        Except.ok ((bucket ri pt).filter
          (fun path => isSubstr (anchorChars pattern.toList) path.toList))) := by
  constructor
  · rfl
  · intro pattern ri pt hne hchars
    have hnil : pattern.toList ≠ [] := by
      intro h
      exact hne (String.ext (show pattern.data = "".data from h))
    unfold parse_prim_pattern
    rw [splitSepRuns_single pattern.toList hnil (fun c hc => (hchars c hc).1)]
    have hstar : ∀ c ∈ pattern.toList, c ≠ '*' := by
      intro c hc h
      have := (hchars c hc).2.1
      rw [h] at this
      simp [isRegexSpecial] at this
    have hanch : ∀ c ∈ anchorChars pattern.toList, isRegexSpecial c = false ∧ c ≠ '.' := by
      intro c hc
      unfold anchorChars at hc
      split at hc
      · exact ⟨(hchars c hc).2.1, (hchars c hc).2.2⟩
      · rcases List.mem_cons.mp hc with rfl | hc
        · exact ⟨by decide, by decide⟩
        · exact ⟨(hchars c hc).2.1, (hchars c hc).2.2⟩
    simp only [resolveAll, resolvePat, starRep_eq_self pattern.toList hstar,
               rcompile_lits _ hanch, List.append_nil, rsearch_lits]

/-- C7 witness: the general conjunct applied at the concrete pattern `final`. -/
theorem c7_witness :
    parse_prim_pattern "final"
        {RenderSettings := ["/Render/final", "/Render/final_high", "/Render/preview"]}
        PrimType.RenderSettings =
      Except.ok ((bucket
          {RenderSettings := ["/Render/final", "/Render/final_high", "/Render/preview"]}
          PrimType.RenderSettings).filter
        (fun path => isSubstr (anchorChars "final".toList) path.toList)) :=
  c7_pattern_semantics.2 "final" _ _ (by decide) (by decide)

/-- C8 (amended): `parse_prim_pattern` raises no exception and returns an
ordered, possibly empty, sequence for every selection string whose characters
are wildcards (`*`), dots, separators or regex-nonspecial characters — in
particular any pattern resolved against an empty bucket, and a wildcard-free
pattern matching nothing, yield an empty result with no error signal.  For a
selection string containing other regex-special characters, `re.compile` can
raise `re.error` (see the counterexample with `(`). -/
theorem c8_amended (patterns : String) (ri : RenderInfo) (pt : PrimType)
    (h : ∀ c ∈ patterns.toList, c = '*' ∨ c = '.' ∨ isRegexSpecial c = false) :
    (∃ r, parse_prim_pattern patterns ri pt = Except.ok r) ∧
    (bucket ri pt = [] → parse_prim_pattern patterns ri pt = Except.ok []) := by
  have hc : ∀ p ∈ splitSepRuns patterns.toList,
      ∃ re, rcompile (anchorChars (starRep p)) = some re := by
    intro p hp
    apply rcompile_anchor_ok
    intro c hcp
    exact h c (splitSepRuns_mem_chars patterns.toList p hp c hcp).1
  obtain ⟨r, hr, hre⟩ := resolveAll_compile_ok ri pt (splitSepRuns patterns.toList) hc
  refine ⟨⟨r, hr⟩, fun hb => ?_⟩
  unfold parse_prim_pattern
  rw [hr, hre hb]

/-- C8 witness: the amended claim at the wildcard-free selection `zzz` against
an empty graph. -/
theorem c8_witness :
    (∃ r, parse_prim_pattern "zzz" ({} : RenderInfo) PrimType.RenderPass = Except.ok r) ∧
    (bucket ({} : RenderInfo) PrimType.RenderPass = [] →
      parse_prim_pattern "zzz" ({} : RenderInfo) PrimType.RenderPass = Except.ok []) :=
  c8_amended "zzz" {} PrimType.RenderPass (by decide)

/-- C10 (amended): only a selection string that *begins or ends* with a
separator produces an empty pattern (consecutive interior separators are one
run, see the counterexample); the empty pattern is anchored to the regex `/`,
which is found in every root-relative path, so the whole kind bucket is
emitted at that pattern's position — the front for a leading separator, the
back for a trailing one. -/
theorem c10_amended (patterns : String) (ri : RenderInfo) (pt : PrimType)
    (res : List String)
    (hpaths : ∀ path ∈ bucket ri pt, path.toList.head? = some '/')
    (hres : parse_prim_pattern patterns ri pt = Except.ok res) :
    (∀ c rest, patterns.toList = c :: rest → isSepChar c = true →
      ∃ t, res = bucket ri pt ++ t) ∧
    (∀ c, patterns.toList.getLast? = some c → isSepChar c = true →
      ∃ t, res = t ++ bucket ri pt) := by
  have hbucket : ∀ (r1 : List String),
      resolveAll ri pt [[]] = Except.ok r1 → r1 = bucket ri pt := by
    intro r1 h1
    have : resolveAll ri pt [[]] =
        Except.ok ((bucket ri pt).filter (fun p => rsearch [RAtom.lit '/'] p.toList) ++ []) := rfl
    rw [this] at h1
    injection h1 with h1
    rw [← h1, List.append_nil]
    exact List.filter_eq_self.mpr (fun path hp => rsearch_slash path.toList (hpaths path hp))
  unfold parse_prim_pattern at hres
  constructor
  · intro c rest hcs hsep
    obtain ⟨t, ht⟩ := splitSepRuns_head_sep c rest hsep
    rw [hcs, ht] at hres
    obtain ⟨r1, r2, h1, h2, rfl⟩ :=
      resolveAll_append_ok ri pt [[]] t res (by simpa using hres)
    exact ⟨r2, by rw [hbucket r1 h1]⟩
  · intro c hlast hsep
    have hne : patterns.toList ≠ [] := by
      intro h
      rw [h] at hlast
      simp at hlast
    obtain ⟨t, htne, ht⟩ := splitSepRuns_last_sep patterns.toList hne
      (fun c' hc' => by rw [hlast] at hc'; injection hc' with hc'; rw [← hc']; exact hsep)
    rw [ht] at hres
    obtain ⟨r1, r2, h1, h2, rfl⟩ := resolveAll_append_ok ri pt t [[]] res hres
    exact ⟨r1, by rw [hbucket r2 h2]⟩

/-- C10 witness: the amended claim at the leading-separator selection `,a`
against a bucket of root-relative paths. -/
theorem c10_witness :
    ∃ t, (["/x", "/y"] : List String) =
      bucket {RenderPass := ["/x", "/y"]} PrimType.RenderPass ++ t :=
  (c10_amended ",a" {RenderPass := ["/x", "/y"]} PrimType.RenderPass ["/x", "/y"]
      (by decide) rfl).1 ',' "a".toList rfl (by decide)

/-! ## OutputPlanner claims -/

/-- C2 (amended): a relationship source *present* in the relationships dict
with an empty target list yields an empty traversal result without error, but
a selected pass *absent* from the dict makes `determine_outputs` raise
`KeyError` at `render_info.relationships[pass_prim]` — absent lookups are not
converted into empty results. -/
theorem c2_amended (ri : RenderInfo) (pv p ov : String)
    (hpv : pv ≠ "") (hsel : parse_prim_pattern pv ri PrimType.RenderPass = Except.ok [p])
    (hpne : p ≠ "") :
    (dictGet ri.relationships p = Except.error (PyErr.keyError p) →
      determine_outputs ri pv "" ov = Except.error (PyErr.keyError p)) ∧
    (dictGet ri.relationships p = Except.ok [] →
      determine_outputs ri pv "" "" = Except.ok [(p, ([], []))]) := by
  constructor
  · intro hget
    simp [determine_outputs, hpv, hsel, foldE, passStep, hpne, hget]
  · intro hget
    simp [determine_outputs, hpv, hsel, foldE, passStep, hpne, hget,
          pnOfSetting, dictSet]

/-- C2 witness: both conjuncts of the amended claim at concrete graphs. -/
theorem c2_witness :
    determine_outputs {RenderPass := ["/p"]} "p" "" "" =
      Except.error (PyErr.keyError "/p") ∧
    determine_outputs {RenderPass := ["/p"], relationships := [("/p", [])]} "p" "" "" =
      Except.ok [("/p", ([], []))] :=
  ⟨(c2_amended {RenderPass := ["/p"]} "p" "/p" "" (by decide) rfl (by decide)).1 rfl,
   (c2_amended {RenderPass := ["/p"], relationships := [("/p", [])]} "p" "/p" ""
      (by decide) rfl (by decide)).2 rfl⟩

/-- Step preservation for C5: when the resolved settings override is nonempty,
every dict entry written by the pass loop carries it as settings list. -/
theorem passStep_settings (ri : RenderInfo) (sp pn : List String) (hsp : sp ≠ [])
    (acc acc' : List (String × (List String × List String))) (pp : String)
    (hstep : passStep ri sp pn acc pp = Except.ok acc')
    (hacc : ∀ e ∈ acc, e.2.1 = sp) : ∀ e ∈ acc', e.2.1 = sp := by
  have hspe : sp.isEmpty = false := by
    cases sp
    · exact absurd rfl hsp
    · rfl
  unfold passStep at hstep
  cases hg : (if pp = "" then Except.ok [ri.renderSettingsPrimPath]
              else dictGet ri.relationships pp : Except PyErr (List String)) with
  | error e => rw [hg] at hstep; cases hstep
  | ok ps0 =>
    simp only [hg, hspe, Bool.false_eq_true, if_false] at hstep
    split at hstep
    · cases hf : foldE (pnOfSetting ri) [] sp with
      | error e => rw [hf] at hstep; cases hstep
      | ok pns =>
        rw [hf] at hstep
        injection hstep with hstep
        subst hstep
        intro e he
        rcases mem_dictSet acc pp (sp, pns) e he with h' | h'
        · exact hacc e h'
        · rw [h']
    · injection hstep with hstep
      subst hstep
      intro e he
      rcases mem_dictSet acc pp (sp, pn) e he with h' | h'
      · exact hacc e h'
      · rw [h']

/-- C5 (amended): when a settings selection string is provided *and* its
PatternResolver result is nonempty, that result entirely replaces the
pass-derived settings in every emitted entry; a selection that resolves to the
empty list is ignored (`if settings_prims:` is false) and the pass-derived
settings are kept — see the counterexample. -/
theorem c5_amended (ri : RenderInfo) (pv sv ov : String) (sp : List String)
    (res : List (String × (List String × List String)))
    (hsv : sv ≠ "")
    (hsel : parse_prim_pattern sv ri PrimType.RenderSettings = Except.ok sp)
    (hsp : sp ≠ [])
    (hres : determine_outputs ri pv sv ov = Except.ok res) :
    ∀ e ∈ res, e.2.1 = sp := by
  unfold determine_outputs at hres
  cases hpp : (if pv ≠ "" then parse_prim_pattern pv ri PrimType.RenderPass
               else Except.ok [] : Except PyErr (List String)) with
  | error e => rw [hpp] at hres; cases hres
  | ok pass_prims =>
    simp only [hpp, if_pos hsv, hsel] at hres
    exact foldE_inv _ (fun acc => ∀ e ∈ acc, e.2.1 = sp)
      (fun a b a' hab ha => passStep_settings ri sp _ hsp a a' b hab ha)
      _ [] res hres (by simp)

/-- C5 witness: the spec's override-precedence example — derived settings would
be the layer default, but the explicit selection resolving to `/Render/rs2`
wins. -/
theorem c5_witness :
    determine_outputs {RenderSettings := ["/Render/rs2"]} "" "rs2" "o" =
      Except.ok [("", (["/Render/rs2"], ["o"]))] ∧
    (("", (["/Render/rs2"], ["o"])) : String × (List String × List String)).2.1 =
      ["/Render/rs2"] :=
  ⟨rfl,
   c5_amended {RenderSettings := ["/Render/rs2"]} "" "rs2" "o" ["/Render/rs2"]
     [("", (["/Render/rs2"], ["o"]))] (by decide) rfl (by decide) rfl
     ("", (["/Render/rs2"], ["o"])) (by simp)⟩

/-- Step preservation for C6: when the split output override is nonempty,
every dict entry written by the pass loop carries it as output list. -/
theorem passStep_outputs (ri : RenderInfo) (sp pn : List String) (hpn : pn ≠ [])
    (acc acc' : List (String × (List String × List String))) (pp : String)
    (hstep : passStep ri sp pn acc pp = Except.ok acc')
    (hacc : ∀ e ∈ acc, e.2.2 = pn) : ∀ e ∈ acc', e.2.2 = pn := by
  have hpne : pn.isEmpty = false := by
    cases pn
    · exact absurd rfl hpn
    · rfl
  unfold passStep at hstep
  cases hg : (if pp = "" then Except.ok [ri.renderSettingsPrimPath]
              else dictGet ri.relationships pp : Except PyErr (List String)) with
  | error e => rw [hg] at hstep; cases hstep
  | ok ps0 =>
    simp only [hg, hpne, Bool.false_eq_true, if_false] at hstep
    injection hstep with hstep
    subst hstep
    intro e he
    rcases mem_dictSet acc pp (if sp.isEmpty then ps0 else sp, pn) e he with h' | h'
    · exact hacc e h'
    · rw [h']

/-- C6 (amended): with a nonempty `outputOverride`, `determine_outputs` splits
it on commas, strips each entry, and — whenever it returns at all — emits
exactly that list as the outputs of every selected pass, performing no graph
traversal for outputs; the settings derivation still consults the graph, and a
selected pass absent from the relationships dict raises `KeyError` before
anything is emitted (see the counterexample). -/
theorem c6_amended (ri : RenderInfo) (pv sv ov : String)
    (res : List (String × (List String × List String)))
    (hov : ov ≠ "")
    (hres : determine_outputs ri pv sv ov = Except.ok res) :
    ∀ e ∈ res, e.2.2 = (splitCh ov.toList).map (fun cs => pyStrip ⟨cs⟩) := by
  unfold determine_outputs at hres
  cases hpp : (if pv ≠ "" then parse_prim_pattern pv ri PrimType.RenderPass
               else Except.ok [] : Except PyErr (List String)) with
  | error e => rw [hpp] at hres; cases hres
  | ok pass_prims =>
    cases hsp : (if sv ≠ "" then parse_prim_pattern sv ri PrimType.RenderSettings
                 else Except.ok [] : Except PyErr (List String)) with
    | error e => rw [hpp, hsp] at hres; cases hres
    | ok settings_prims =>
      simp only [hpp, hsp, if_pos hov] at hres
      have hpn : (splitCh ov.toList).map (fun cs => pyStrip ⟨cs⟩) ≠ [] := by
        intro h
        exact splitCh_ne_nil ov.toList (List.map_eq_nil_iff.mp h)
      exact foldE_inv _ (fun acc => ∀ e ∈ acc,
          e.2.2 = (splitCh ov.toList).map (fun cs => pyStrip ⟨cs⟩))
        (fun a b a' hab ha => passStep_outputs ri settings_prims _ hpn a a' b hab ha)
        _ [] res hres (by simp)

/-- C6 witness: the spec's short-circuit example at a graph with no products:
the override list is emitted verbatim. -/
theorem c6_witness :
    determine_outputs ({} : RenderInfo) "" "" "out1.%04d.exr, out2.%04d.exr" =
      Except.ok [("", (["/Render/rendersettings"], ["out1.%04d.exr", "out2.%04d.exr"]))] ∧
    (("", (["/Render/rendersettings"], ["out1.%04d.exr", "out2.%04d.exr"])) :
        String × (List String × List String)).2.2 =
      (splitCh "out1.%04d.exr, out2.%04d.exr".toList).map (fun cs => pyStrip ⟨cs⟩) :=
  ⟨rfl,
   c6_amended {} "" "" "out1.%04d.exr, out2.%04d.exr"
     [("", (["/Render/rendersettings"], ["out1.%04d.exr", "out2.%04d.exr"]))]
     (by decide) rfl
     ("", (["/Render/rendersettings"], ["out1.%04d.exr", "out2.%04d.exr"])) (by simp)⟩

/-! ## Extractor claims -/

/-- The six collection attributes of the dataclass (lists and the dict). -/
def collectionAttr (k : String) : Bool :=
  k = "ProductName" || k = "RenderVar" || k = "RenderProduct" ||
  k = "RenderSettings" || k = "RenderPass" || k = "relationships"

/-- `hasattr(result, k)` over the nine dataclass fields. -/
def renderInfoAttr (k : String) : Bool :=
  k = "startTimeCode" || k = "endTimeCode" || k = "renderSettingsPrimPath" ||
  collectionAttr k

/-- The only attributes of the instance whose assignment raises, verified
against CPython on an identical dataclass: `__class__` and `__dict__` reject a
string with `TypeError`, and the read-only `__weakref__` raises
`AttributeError`.  Every other existing attribute — the nine fields included —
accepts the assignment silently. -/
def unsettableAttr (k : String) : Bool :=
  k = "__class__" || k = "__dict__" || k = "__weakref__"

/-- A metadata-mode line that raises nothing: either it has no `' = '`, or its
lstripped text splits into exactly two parts (any other count raises
`ValueError` at the unpacking) whose key is none of the three non-writable
object attributes. -/
def metaSafe (l : String) : Bool :=
  !(strContains " = " l) ||
    (match splitEq (pyLstrip l).toList with
     | [k, _] => !(unsettableAttr ⟨k⟩)
     | _ => false)

theorem setattrMeta_ok (st : PState) (k v : String) (hk : unsettableAttr k = false) :
    ∃ st', setattrMeta st k v = Except.ok st' ∧
      st'.finished_metadata = st.finished_metadata := by
  simp only [unsettableAttr, Bool.or_eq_false_iff, decide_eq_false_iff_not] at hk
  unfold setattrMeta
  split
  · exact ⟨_, rfl, rfl⟩
  split
  · exact ⟨_, rfl, rfl⟩
  split
  · exact ⟨_, rfl, rfl⟩
  split
  · exact ⟨_, rfl, rfl⟩
  split
  · rename_i hdis
    exfalso
    rcases hdis with h | h
    · exact hk.1.1 h
    · exact hk.1.2 h
  split
  · rename_i h
    exact absurd h hk.2
  · exact ⟨st, rfl, rfl⟩

/-- Unfolding of `stepLine` for a non-terminator metadata-mode line containing
`' = '`. -/
theorem stepLine_meta (norm : String → String) (st : PState) (line : String)
    (h0 : st.finished_metadata = false) (h1 : pyStrip line ≠ ")")
    (hc : strContains " = " line = true) :
    stepLine norm st line =
      (match splitEq (pyLstrip line).toList with
       | [k, v] => setattrMeta st ⟨k⟩ ⟨v⟩
       | _ => Except.error PyErr.valueError) := by
  unfold stepLine
  rw [h0]
  simp only [if_true, if_neg h1, hc]
  simp

theorem metaStep_ok (norm : String → String) (st : PState) (l : String)
    (h0 : st.finished_metadata = false) (h1 : pyStrip l ≠ ")")
    (h2 : metaSafe l = true) :
    ∃ st', stepLine norm st l = Except.ok st' ∧ st'.finished_metadata = false := by
  cases hc : strContains " = " l with
  | false =>
    refine ⟨st, ?_, h0⟩
    unfold stepLine
    rw [h0]
    simp [if_neg h1, hc]
  | true =>
    rw [stepLine_meta norm st l h0 h1 hc]
    unfold metaSafe at h2
    rw [hc] at h2
    simp only [Bool.not_true, Bool.false_or] at h2
    cases hsp : splitEq (pyLstrip l).toList with
    | nil => rw [hsp] at h2; simp at h2
    | cons k rest =>
      cases rest with
      | nil => rw [hsp] at h2; simp at h2
      | cons v rest2 =>
        cases rest2 with
        | nil =>
          rw [hsp] at h2
          simp only [Bool.not_eq_true'] at h2
          obtain ⟨st', hst', hfm⟩ := setattrMeta_ok st ⟨k⟩ ⟨v⟩ h2
          exact ⟨st', hst', by rw [hfm]; exact h0⟩
        | cons w rest3 => rw [hsp] at h2; simp at h2

theorem runLines_meta (norm : String → String) : ∀ (lines : List String) (st : PState),
    st.finished_metadata = false →
    (∀ l ∈ lines, pyStrip l ≠ ")") → (∀ l ∈ lines, metaSafe l = true) →
    ∃ st', runLines norm st lines = Except.ok st' ∧ st'.finished_metadata = false := by
  intro lines
  induction lines with
  | nil => intro st h0 _ _; exact ⟨st, rfl, h0⟩
  | cons l ls ih =>
    intro st h0 h1 h2
    obtain ⟨st1, hstep, hfm⟩ := metaStep_ok norm st l h0 (h1 l (by simp)) (h2 l (by simp))
    obtain ⟨st', hrun, hfm'⟩ :=
      ih st1 hfm (fun x hx => h1 x (by simp [hx])) (fun x hx => h2 x (by simp [hx]))
    refine ⟨st', ?_, hfm'⟩
    unfold runLines
    simp only [hstep]
    exact hrun

/-- C1 (amended): the parser defines no `MalformedLayerError` and an unclosed
metadata preamble is not fatal: on any input with no terminator line `)`, every
line is consumed in metadata mode and a graph is returned — even for keys
naming the collection attributes, which Python silently overwrites — provided
no line crashes the `split(' = ')` unpacking with `ValueError` and no key is
one of the three non-writable object attributes `__class__`, `__dict__`,
`__weakref__`, whose assignment raises `TypeError`/`AttributeError`
(`metaSafe`). -/
theorem c1_amended (norm : String → String) (lines : List String)
    (h1 : ∀ l ∈ lines, pyStrip l ≠ ")") (h2 : ∀ l ∈ lines, metaSafe l = true) :
    ∃ ri, get_render_info norm lines = Except.ok ri := by
  obtain ⟨st', hrun, _⟩ := runLines_meta norm lines {} rfl h1 h2
  refine ⟨st'.result, ?_⟩
  unfold get_render_info
  rw [hrun]

/-- C1 witness: the amended claim at a one-line input with no terminator. -/
theorem c1_witness : ∃ ri, get_render_info (fun s => s) ["a"] = Except.ok ri :=
  c1_amended (fun s => s) ["a"] (by decide) (by decide)

/-- C9 (amended): in metadata mode, a line whose lstripped text splits on
`' = '` into exactly two parts behaves by key: the three recognized scalar
fields store the quote-stripped value; the six collection attributes are
*silently overwritten* with the string (recorded in the raw-attribute store,
poisoning later use); assigning `__class__` or `__dict__` raises `TypeError`
and the read-only `__weakref__` raises `AttributeError`; every other key
leaves the state unchanged (absent keys are ignored, other inherited attribute
names are merely shadowed on the instance).  A line without `' = '` is
ignored, and a line containing `' = '` whose split does not have exactly two
parts crashes the unpacking with `ValueError` instead of leaving the graph
unchanged (see the counterexample). -/
theorem c9_amended (norm : String → String) (st : PState) (line : String)
    (h0 : st.finished_metadata = false) (h1 : pyStrip line ≠ ")") :
    (strContains " = " line = false → stepLine norm st line = Except.ok st) ∧
    (∀ v : List Char, strContains " = " line = true →
      splitEq (pyLstrip line).toList = ["startTimeCode".toList, v] →
      stepLine norm st line = Except.ok {st with result :=
        {st.result with startTimeCode := MetaV.str (stripQuotes ⟨v⟩)}}) ∧
    (∀ v : List Char, strContains " = " line = true →
      splitEq (pyLstrip line).toList = ["endTimeCode".toList, v] →
      stepLine norm st line = Except.ok {st with result :=
        {st.result with endTimeCode := MetaV.str (stripQuotes ⟨v⟩)}}) ∧
    (∀ v : List Char, strContains " = " line = true →
      splitEq (pyLstrip line).toList = ["renderSettingsPrimPath".toList, v] →
      stepLine norm st line = Except.ok {st with result :=
        {st.result with renderSettingsPrimPath := stripQuotes ⟨v⟩}}) ∧
    (∀ k v : List Char, strContains " = " line = true →
      splitEq (pyLstrip line).toList = [k, v] →
      collectionAttr ⟨k⟩ = true →
      stepLine norm st line = Except.ok
        {st with overwritten := strDictSet st.overwritten ⟨k⟩ (stripQuotes ⟨v⟩)}) ∧
    (∀ k v : List Char, strContains " = " line = true →
      splitEq (pyLstrip line).toList = [k, v] →
      ((⟨k⟩ : String) = "__class__" ∨ (⟨k⟩ : String) = "__dict__") →
      stepLine norm st line = Except.error PyErr.typeError) ∧
    (∀ v : List Char, strContains " = " line = true →
      splitEq (pyLstrip line).toList = ["__weakref__".toList, v] →
      stepLine norm st line = Except.error PyErr.attributeError) ∧
    (∀ k v : List Char, strContains " = " line = true →
      splitEq (pyLstrip line).toList = [k, v] →
      renderInfoAttr ⟨k⟩ = false → unsettableAttr ⟨k⟩ = false →
      stepLine norm st line = Except.ok st) ∧
    (strContains " = " line = true →
      (splitEq (pyLstrip line).toList).length ≠ 2 →
      stepLine norm st line = Except.error PyErr.valueError) := by
  refine ⟨?_, ?_, ?_, ?_, ?_, ?_, ?_, ?_, ?_⟩
  · intro hc
    unfold stepLine
    rw [h0]
    simp [if_neg h1, hc]
  · intro v hc hsp
    rw [stepLine_meta norm st line h0 h1 hc, hsp]
    rfl
  · intro v hc hsp
    rw [stepLine_meta norm st line h0 h1 hc, hsp]
    rfl
  · intro v hc hsp
    rw [stepLine_meta norm st line h0 h1 hc, hsp]
    rfl
  · intro k v hc hsp hcoll
    rw [stepLine_meta norm st line h0 h1 hc, hsp]
    show setattrMeta st ⟨k⟩ ⟨v⟩ = _
    simp only [collectionAttr, Bool.or_eq_true, decide_eq_true_eq] at hcoll
    rcases hcoll with ((((h | h) | h) | h) | h) | h
    · rw [h]; rfl
    · rw [h]; rfl
    · rw [h]; rfl
    · rw [h]; rfl
    · rw [h]; rfl
    · rw [h]; rfl
  · intro k v hc hsp hdun
    rw [stepLine_meta norm st line h0 h1 hc, hsp]
    show setattrMeta st ⟨k⟩ ⟨v⟩ = _
    rcases hdun with h | h
    · rw [h]; rfl
    · rw [h]; rfl
  · intro v hc hsp
    rw [stepLine_meta norm st line h0 h1 hc, hsp]
    rfl
  · intro k v hc hsp hattr hset
    rw [stepLine_meta norm st line h0 h1 hc, hsp]
    simp only [renderInfoAttr, collectionAttr, Bool.or_eq_false_iff,
               decide_eq_false_iff_not] at hattr
    simp only [unsettableAttr, Bool.or_eq_false_iff, decide_eq_false_iff_not] at hset
    obtain ⟨⟨⟨n1, n2⟩, n3⟩, ⟨⟨⟨⟨⟨n4, n5⟩, n6⟩, n7⟩, n8⟩, n9⟩⟩ := hattr
    obtain ⟨⟨m1, m2⟩, m3⟩ := hset
    have hnd : ¬((⟨k⟩ : String) = "ProductName" ∨ (⟨k⟩ : String) = "RenderVar" ∨
        (⟨k⟩ : String) = "RenderProduct" ∨ (⟨k⟩ : String) = "RenderSettings" ∨
        (⟨k⟩ : String) = "RenderPass" ∨ (⟨k⟩ : String) = "relationships") := by
      rintro (h | h | h | h | h | h)
      · exact n4 h
      · exact n5 h
      · exact n6 h
      · exact n7 h
      · exact n8 h
      · exact n9 h
    have hnd2 : ¬((⟨k⟩ : String) = "__class__" ∨ (⟨k⟩ : String) = "__dict__") := by
      rintro (h | h)
      · exact m1 h
      · exact m2 h
    show setattrMeta st ⟨k⟩ ⟨v⟩ = Except.ok st
    unfold setattrMeta
    rw [if_neg n1, if_neg n2, if_neg n3, if_neg hnd, if_neg hnd2, if_neg m3]
  · intro hc hlen
    rw [stepLine_meta norm st line h0 h1 hc]
    rcases hsp : splitEq (pyLstrip line).toList with _ | ⟨k, _ | ⟨v, _ | ⟨w, rest⟩⟩⟩
    · rfl
    · rfl
    · rw [hsp] at hlen; simp at hlen
    · rfl

/-- C9 witness: the amended claim at the default state, on an ignored line, a
recognized scalar line, a collection-overwrite line, a non-writable dunder
line, an unrecognized-key line, and a double-`' = '` line. -/
theorem c9_witness :
    stepLine (fun s => s) {} "hello" = Except.ok {} ∧
    stepLine (fun s => s) {} "startTimeCode = \"5\"" =
      Except.ok {result := {startTimeCode := MetaV.str "5"}} ∧
    stepLine (fun s => s) {} "RenderPass = \"x\"" =
      Except.ok {overwritten := [("RenderPass", "x")]} ∧
    stepLine (fun s => s) {} "__class__ = x" = Except.error PyErr.typeError ∧
    stepLine (fun s => s) {} "foo = 1" = Except.ok {} ∧
    stepLine (fun s => s) {} "a = b = c" = Except.error PyErr.valueError := by
  refine ⟨?_, ?_, ?_, ?_, ?_, ?_⟩
  · exact (c9_amended (fun s => s) {} "hello" rfl (by decide)).1 (by decide)
  · exact (c9_amended (fun s => s) {} "startTimeCode = \"5\"" rfl (by decide)).2.1
      "\"5\"".toList (by decide) (by decide)
  · exact (c9_amended (fun s => s) {} "RenderPass = \"x\"" rfl (by decide)).2.2.2.2.1
      "RenderPass".toList "\"x\"".toList (by decide) (by decide) (by decide)
  · exact (c9_amended (fun s => s) {} "__class__ = x" rfl (by decide)).2.2.2.2.2.1
      "__class__".toList "x".toList (by decide) (by decide) (Or.inl (by decide))
  · exact (c9_amended (fun s => s) {} "foo = 1" rfl (by decide)).2.2.2.2.2.2.2.1
      "foo".toList "1".toList (by decide) (by decide) (by decide) (by decide)
  · exact (c9_amended (fun s => s) {} "a = b = c" rfl (by decide)).2.2.2.2.2.2.2.2
      (by decide) (by decide)

/-- C4 (amended): an array block `= [` followed by three `<path>` lines then
`]` appends exactly those three targets, in file order, to the relationship
list of the opening prim; a map block `= {` appends only the *first* matching
`index: "value",` line — its frame-padding-normalized literal goes to both the
relationship list and the `ProductName` bucket — after which lines are skipped
until the `}` terminator.  Stated for every frame-padding normalizer `norm`. -/
theorem c4_amended (norm : String → String) :
    get_render_info norm
      [")", "def RenderSettings \"rs\"", "    rel products = [", "        </a>",
       "        </b>", "        </c>", "    ]", "    def RenderProduct \"p\"",
       "        token productName.timeSamples = \x7b",
       "            0: \"f1.1001.exr\",", "            1: \"f2.1001.exr\",",
       "        \x7d"] =
    Except.ok {ProductName := [norm "f1.1001.exr"],
               RenderProduct := ["/rs/p"], RenderSettings := ["/rs"],
               relationships := [("/rs", ["/a", "/b", "/c"]),
                                 ("/rs/p", [norm "f1.1001.exr"])]} := rfl

/-- C4 witness: the amended claim at the identity normalizer. -/
theorem c4_witness :
    get_render_info (fun s => s)
      [")", "def RenderSettings \"rs\"", "    rel products = [", "        </a>",
       "        </b>", "        </c>", "    ]", "    def RenderProduct \"p\"",
       "        token productName.timeSamples = \x7b",
       "            0: \"f1.1001.exr\",", "            1: \"f2.1001.exr\",",
       "        \x7d"] =
    Except.ok {ProductName := ["f1.1001.exr"],
               RenderProduct := ["/rs/p"], RenderSettings := ["/rs"],
               relationships := [("/rs", ["/a", "/b", "/c"]),
                                 ("/rs/p", ["f1.1001.exr"])]} :=
  c4_amended (fun s => s)
